import Mathlib

/-!
Verification of the chunker repository: an asynchronous file chunker
(`src/pkg/fileio/async_file_chunker.py`) built on a lock-guarded counter
(`src/pkg/atomics/atomic_counter.py`) with a CLI wrapper
(`src/cmd/chunker.py`).

The embedding below translates the Python source into pure Lean
definitions.  The single coroutine of `process_file` is modelled as a
total function over a *read script* (the sequence of outcomes that
successive `file.read(chunk_size)` calls produce: a byte chunk, the
empty chunk at end of file, or a raised I/O error), threading an
explicit state that holds the two counters, the printed progress
reports, the printed error messages, and a ghost event trace recording
the order of read / hook / counter-update / progress-print steps.
-/

/--
Storage semantics of `multiprocessing.Value('i', ...)`: a C `int`
(32-bit signed).  ctypes stores Python integers into an `i` field by
masking, so every write lands in `[-2^31, 2^31)` by signed wraparound
modulo `2^32`.
-/
def wrap32 (x : Int) : Int := (x + 2 ^ 31) % 2 ^ 32 - 2 ^ 31

/--
`AtomicCounter` (src/pkg/atomics/atomic_counter.py).  Its `value` field
is the `multiprocessing.Value('i', initial)` backing store; the
`multiprocessing.Lock` serialises the three operations, so a run of the
(sequential or serialised-concurrent) program is a sequence of the
operations below and the lock itself needs no further modelling.
-/
structure AtomicCounter where
  value : Int
deriving DecidableEq

/-- `AtomicCounter.__init__(initial=0)`: stores `initial` into the
32-bit backing store. -/
def AtomicCounter.new (initial : Int) : AtomicCounter :=
  ⟨wrap32 initial⟩

/-- `AtomicCounter.increment(num=1)`: `self.value.value += num` under
the lock; the store into the `'i'` field wraps to 32 bits. -/
def AtomicCounter.increment (c : AtomicCounter) (num : Int) : AtomicCounter :=
  ⟨wrap32 (c.value + num)⟩

/-- `AtomicCounter.decrement(num=1)`: `self.value.value -= num` under
the lock. -/
def AtomicCounter.decrement (c : AtomicCounter) (num : Int) : AtomicCounter :=
  ⟨wrap32 (c.value - num)⟩

/-- `AtomicCounter.get()`: snapshot read of the stored value. -/
def AtomicCounter.get (c : AtomicCounter) : Int :=
  c.value

/-!
## Console rendering (`humanize.intcomma` and Python `:>w` alignment)
-/

/-- Comma-grouping of a digit list given least-significant first:
insert `,` after every third digit. -/
def commaRev : List Char → List Char
  | d1 :: d2 :: d3 :: d4 :: rest => d1 :: d2 :: d3 :: ',' :: commaRev (d4 :: rest)
  | ds => ds

/-- `humanize.intcomma` on a natural number: decimal digits with
thousands separators. -/
def natComma (n : Nat) : String :=
  String.mk (commaRev (Nat.toDigits 10 n).reverse).reverse

/-- `humanize.intcomma` on an integer. -/
def intcomma (x : Int) : String :=
  if x < 0 then "-" ++ natComma x.natAbs else natComma x.toNat

/-- Python format alignment `{s:>w}`: right-align `s` in a field of
minimum width `w`, padding with spaces. -/
def rjust (w : Nat) (s : String) : String :=
  String.mk (List.replicate (w - s.length) ' ') ++ s

/-!
## The chunk processor (`src/pkg/fileio/async_file_chunker.py`)
-/

/--
Ghost trace events instrumenting the body of `process_file`'s loop, in
the order the awaits/calls complete.  `i` is the 0-based iteration:
`read i` is the return of the `i`-th `file.read(chunk_size)` call,
`hook i` the completion of `await self._process_single_chunk(chunk)`,
`update i` the two counter increments of `_update_metrics`, and
`report i` the progress `print` of `_display_progress`.
-/
inductive Ev where
  | read (i : Nat)
  | hook (i : Nat)
  | update (i : Nat)
  | report (i : Nat)
deriving DecidableEq

/-- One printed progress line, kept structured: the values that
`_display_progress` interpolates (the two counter `get()` snapshots and
this chunk's length).  `render` below is the f-string itself. -/
structure ProgressReport where
  count : Int
  chunkLength : Nat
  total : Int
deriving DecidableEq

/-- The f-string of `_display_progress`:
`f"Processed[{intcomma(cc):>4}]:{intcomma(len):>6}B / {intcomma(tb):>10}B"`. -/
def ProgressReport.render (r : ProgressReport) : String :=
  "Processed[" ++ rjust 4 (intcomma r.count) ++ "]:"
    ++ rjust 6 (intcomma (Int.ofNat r.chunkLength)) ++ "B / "
    ++ rjust 10 (intcomma r.total) ++ "B"

/--
An `AsyncFileChunker` instance together with its observable output.
`chunk_counter` and `total_bytes` are the two `AtomicCounter` fields
created in `__init__`; `reports` are the progress lines printed so far,
`messages` the error lines printed by the `except` handlers, and
`events` the ghost trace.
-/
structure AsyncFileChunker where
  chunk_counter : AtomicCounter
  total_bytes : AtomicCounter
  reports : List ProgressReport
  events : List Ev
  messages : List String
deriving DecidableEq

/-- `AsyncFileChunker.__init__`: two fresh counters at 0, nothing
printed yet. -/
def AsyncFileChunker.new : AsyncFileChunker :=
  ⟨AtomicCounter.new 0, AtomicCounter.new 0, [], [], []⟩

/-- Append a ghost event. -/
def pushEv (e : Ev) (st : AsyncFileChunker) : AsyncFileChunker :=
  { st with events := st.events ++ [e] }

/-- `_process_single_chunk(chunk)`: `await asyncio.sleep(PROCESS_DELAY_SECONDS)`
— no state effect; only the hook-completion event is recorded.  The
`chunk` argument is unused, as in the source. -/
def process_single_chunk (j : Nat) (_chunk : List Nat) (st : AsyncFileChunker) : AsyncFileChunker :=
  pushEv (Ev.hook j) st

/-- `_display_progress(chunk_length)`: builds the progress line from
`self.chunk_counter.get()` and `self.total_bytes.get()`. -/
def display_progress (st : AsyncFileChunker) (chunk_length : Nat) : ProgressReport :=
  ⟨st.chunk_counter.get, chunk_length, st.total_bytes.get⟩

/-- `_update_metrics(chunk_length)`: `total_bytes.increment(chunk_length)`,
then `chunk_counter.increment()`, then `_display_progress(chunk_length)`. -/
def update_metrics (j : Nat) (st : AsyncFileChunker) (chunk_length : Nat) : AsyncFileChunker :=
  let st1 : AsyncFileChunker :=
    { st with total_bytes := st.total_bytes.increment (Int.ofNat chunk_length),
              chunk_counter := st.chunk_counter.increment 1 }
  { st1 with reports := st1.reports ++ [display_progress st1 chunk_length],
             events := st1.events ++ [Ev.update j, Ev.report j] }

/-- The four error kinds of §7: `FileNotFoundError`, `PermissionError`,
and any other exception raised by I/O (carrying its `str(e)`). -/
inductive IOErr where
  | fileNotFound
  | permissionDenied
  | other (msg : String)
deriving DecidableEq

/-- Outcome of one `await file.read(chunk_size)` call: bytes returned
(`chunk []` at end of file) or an exception raised. -/
inductive ReadRes where
  | chunk (bytes : List Nat)
  | ioerr (e : IOErr)
deriving DecidableEq

/-- The messages printed by the three `except` branches of
`process_file`. -/
def errorMessage (file_path : String) : IOErr → String
  | IOErr.fileNotFound => "File not found: " ++ file_path
  | IOErr.permissionDenied => "Permission denied accessing file: " ++ file_path
  | IOErr.other s => "Error processing file: " ++ s

/--
The `while chunk := await file.read(chunk_size): ...` loop of
`process_file`, driven by the script of read outcomes.  `j` counts the
read calls made so far.  An empty read is falsy and ends the loop; a
raised error propagates out of the loop (`some e`) to the `except`
handlers; an exhausted script is treated as end of file.
-/
def read_loop (j : Nat) : List ReadRes → AsyncFileChunker → AsyncFileChunker × Option IOErr
  | [], st => (st, none)
  | ReadRes.chunk [] :: _, st => (pushEv (Ev.read j) st, none)
  | ReadRes.chunk (b :: bs) :: rest, st =>
      read_loop (j + 1) rest
        (update_metrics j (process_single_chunk j (b :: bs) (pushEv (Ev.read j) st))
          (b :: bs).length)
  | ReadRes.ioerr e :: _, st => (pushEv (Ev.read j) st, some e)

/--
`AsyncFileChunker.process_file(file_path, chunk_size)`.  `opened` is
the outcome of `aiofiles.open(file_path, 'rb')` together with the read
script the opened file will produce: `Except.error e` when the open
itself raises.  The three `except` branches print their classified
message; the function always returns (Python returns `None`), never
re-raising.
-/
def process_file (file_path : String) (opened : Except IOErr (List ReadRes))
    (st : AsyncFileChunker) : AsyncFileChunker :=
  match opened with
  | Except.error e => { st with messages := st.messages ++ [errorMessage file_path e] }
  | Except.ok script =>
      match read_loop 0 script st with
      | (st1, none) => st1
      | (st1, some e) => { st1 with messages := st1.messages ++ [errorMessage file_path e] }

/--
Fuel-indexed worker for `chunksOf`: every produced chunk consumes at
least one byte of a nonempty `data` (given `chunk_size ≠ 0`), so
`data.length` units of fuel always suffice.  Structural recursion on
the fuel keeps the definition kernel-computable.
-/
def chunksOfFuel (chunk_size : Nat) : Nat → List Nat → List (List Nat)
  | 0, _ => []
  | _, [] => []
  | fuel + 1, b :: bs =>
      (b :: bs).take chunk_size :: chunksOfFuel chunk_size fuel ((b :: bs).drop chunk_size)

/--
Successive chunks that sequential `read(chunk_size)` calls return on a
regular file holding `data`: each call returns the next
`min chunk_size remaining` bytes.  For `chunk_size = 0` Python's
`read(0)` returns `b''` immediately, so no chunks are produced.
-/
def chunksOf (chunk_size : Nat) (data : List Nat) : List (List Nat) :=
  if chunk_size = 0 then [] else chunksOfFuel chunk_size data.length data

/-- The read script of an intact regular file holding `data`: its
chunks in order, then the empty read at end of file. -/
def fileScript (chunk_size : Nat) (data : List Nat) : List ReadRes :=
  (chunksOf chunk_size data).map ReadRes.chunk ++ [ReadRes.chunk []]

/-- One complete successful run: a freshly constructed
`AsyncFileChunker` processing an intact file holding `data` with the
given chunk size (the path string does not affect a successful run). -/
def runOn (chunk_size : Nat) (data : List Nat) : AsyncFileChunker :=
  process_file "file" (Except.ok (fileScript chunk_size data)) AsyncFileChunker.new

/-- `validate_file_path` (src/cmd/chunker.py): raises
`FileNotFoundError` naming the path when it does not exist, `ValueError`
when it is not a regular file. -/
def validate_file_path (file_path : String) (pathExists isFile : Bool) : Except String Unit :=
  if pathExists = false then Except.error ("File '" ++ file_path ++ "' does not exist")
  else if isFile = false then Except.error ("'" ++ file_path ++ "' is not a file")
  else Except.ok ()

/-!
## Loop characterisation infrastructure
-/

/-- Total byte length of a list of chunks. -/
def sumLens (chs : List (List Nat)) : Nat :=
  (chs.map List.length).sum

/-- One iteration of the `while` body on a nonempty chunk `ch`: the
read returns, the hook runs, the metrics update. -/
def stepBody (j : Nat) (st : AsyncFileChunker) (ch : List Nat) : AsyncFileChunker :=
  update_metrics j (process_single_chunk j ch (pushEv (Ev.read j) st)) ch.length

/-- The loop body folded over a list of (nonempty) chunks, numbering
iterations from `j`. -/
def foldSteps (j : Nat) (st : AsyncFileChunker) : List (List Nat) → AsyncFileChunker
  | [] => st
  | ch :: rest => foldSteps (j + 1) (stepBody j st ch) rest

/-- The progress reports a run emits, given the starting counter
values: each chunk's line shows both counters after their increments. -/
def reportsFrom (cc tb : Int) : List (List Nat) → List ProgressReport
  | [] => []
  | ch :: rest =>
      ⟨wrap32 (cc + 1), ch.length, wrap32 (tb + ch.length)⟩ ::
        reportsFrom (wrap32 (cc + 1)) (wrap32 (tb + ch.length)) rest

/-- The strictly sequential event trace of `k` loop iterations starting
at iteration `j`: read, then hook, then counter update, then progress
line, for one chunk after the other. -/
def seqTraceFrom : Nat → Nat → List Ev
  | _, 0 => []
  | j, k + 1 => [Ev.read j, Ev.hook j, Ev.update j, Ev.report j] ++ seqTraceFrom (j + 1) k


/-!
## Basic facts and executable sanity checks
-/

-- Basic facts about the 32-bit store.

theorem wrap32_idem (x : Int) : wrap32 (wrap32 x) = wrap32 x := by
  unfold wrap32; omega

theorem wrap32_absorb_left (a b : Int) : wrap32 (wrap32 a + b) = wrap32 (a + b) := by
  unfold wrap32; omega

theorem wrap32_range (x : Int) : -(2 ^ 31) ≤ wrap32 x ∧ wrap32 x < 2 ^ 31 := by
  unfold wrap32; omega

theorem wrap32_eq_self (x : Int) (h1 : -(2 ^ 31) ≤ x) (h2 : x < 2 ^ 31) : wrap32 x = x := by
  unfold wrap32; omega

theorem wrap32_emod (x : Int) : wrap32 x % 2 ^ 32 = x % 2 ^ 32 := by
  unfold wrap32; omega

example : wrap32 8192 = 8192 := by decide
example : wrap32 (2 ^ 31) = -(2 ^ 31) := by decide


example : intcomma 8192 = "8,192" := by decide
example : intcomma 20000 = "20,000" := by decide
example : intcomma (-(2 ^ 31)) = "-2,147,483,648" := by decide
example : rjust 4 (intcomma 3) = "   3" := by decide


example :
    (runOn 2 [7, 7, 7]).reports =
      [⟨1, 2, 2⟩, ⟨2, 1, 3⟩] := by decide
example : (runOn 2 [7, 7, 7]).chunk_counter.get = 2 := by decide
example :
    (runOn 2 [7, 7, 7]).events =
      [Ev.read 0, Ev.hook 0, Ev.update 0, Ev.report 0,
       Ev.read 1, Ev.hook 1, Ev.update 1, Ev.report 1, Ev.read 2] := by decide
example : (ProgressReport.render ⟨1, 8192, 8192⟩) =
    "Processed[   1]: 8,192B /      8,192B" := by decide


theorem chunksOfFuel_congr (c : Nat) (hc : c ≠ 0) :
    ∀ (f1 : Nat) (data : List Nat) (f2 : Nat), data.length ≤ f1 → data.length ≤ f2 →
      chunksOfFuel c f1 data = chunksOfFuel c f2 data := by
  intro f1
  induction f1 with
  | zero =>
      intro data f2 h1 _
      have hdata : data = [] := List.eq_nil_of_length_eq_zero (Nat.le_zero.mp h1)
      subst hdata
      cases f2 <;> simp [chunksOfFuel]
  | succ f ih =>
      intro data f2 h1 h2
      cases data with
      | nil => cases f2 <;> simp [chunksOfFuel]
      | cons b bs =>
          cases f2 with
          | zero => simp at h2
          | succ g =>
              simp only [chunksOfFuel]
              have hlen : ((b :: bs).drop c).length ≤ f := by
                simp only [List.length_drop, List.length_cons] at *
                omega
              have hlen2 : ((b :: bs).drop c).length ≤ g := by
                simp only [List.length_drop, List.length_cons] at *
                omega
              rw [ih ((b :: bs).drop c) g hlen hlen2]

theorem chunksOf_nil (c : Nat) : chunksOf c [] = [] := by
  unfold chunksOf
  cases c <;> simp [chunksOfFuel]

theorem chunksOf_cons (c : Nat) (hc : c ≠ 0) (b : Nat) (bs : List Nat) :
    chunksOf c (b :: bs) =
      (b :: bs).take c :: chunksOf c ((b :: bs).drop c) := by
  unfold chunksOf
  simp only [hc, if_false, List.length_cons, chunksOfFuel]
  rw [chunksOfFuel_congr c hc bs.length ((b :: bs).drop c) ((b :: bs).drop c).length
    (by simp only [List.length_drop, List.length_cons]; omega) (Nat.le_refl _)]

theorem chunksOfFuel_mem (c : Nat) (hc : c ≠ 0) :
    ∀ (fuel : Nat) (data : List Nat), ∀ ch ∈ chunksOfFuel c fuel data,
      ch ≠ [] ∧ ch.length ≤ c := by
  intro fuel
  induction fuel with
  | zero => intro data ch hch; simp [chunksOfFuel] at hch
  | succ f ih =>
      intro data ch hch
      cases data with
      | nil => simp [chunksOfFuel] at hch
      | cons b bs =>
          simp only [chunksOfFuel, List.mem_cons] at hch
          rcases hch with rfl | hch
          · refine ⟨?_, by simp [List.length_take]⟩
            have hpos : 0 < ((b :: bs).take c).length := by
              simp only [List.length_take, List.length_cons]
              omega
            exact List.ne_nil_of_length_pos hpos
          · exact ih _ ch hch

/-- Every chunk a run produces is nonempty and no longer than the chunk
size. -/
theorem chunksOf_mem (c : Nat) (data : List Nat) :
    ∀ ch ∈ chunksOf c data, ch ≠ [] ∧ ch.length ≤ c := by
  intro ch hch
  unfold chunksOf at hch
  by_cases hc : c = 0
  · simp [hc] at hch
  · simp only [hc, if_false] at hch
    exact chunksOfFuel_mem c hc _ data ch hch

theorem chunksOfFuel_sumLens (c : Nat) (hc : c ≠ 0) :
    ∀ (fuel : Nat) (data : List Nat), data.length ≤ fuel →
      sumLens (chunksOfFuel c fuel data) = data.length := by
  intro fuel
  induction fuel with
  | zero =>
      intro data h1
      have hdata : data = [] := List.eq_nil_of_length_eq_zero (Nat.le_zero.mp h1)
      subst hdata
      simp [chunksOfFuel, sumLens]
  | succ f ih =>
      intro data h1
      cases data with
      | nil => simp [chunksOfFuel, sumLens]
      | cons b bs =>
          have hrec := ih ((b :: bs).drop c)
            (by simp only [List.length_drop, List.length_cons] at *; omega)
          simp only [chunksOfFuel, sumLens, List.map_cons, List.sum_cons] at *
          rw [hrec]
          simp only [List.length_take, List.length_drop, List.length_cons]
          omega

/-- The chunks of a run concatenate back to the whole file: their
lengths sum to `data.length`. -/
theorem sumLens_chunksOf (c : Nat) (hc : c ≠ 0) (data : List Nat) :
    sumLens (chunksOf c data) = data.length := by
  unfold chunksOf
  simp only [hc, if_false]
  exact chunksOfFuel_sumLens c hc data.length data (Nat.le_refl _)

theorem stepBody_eq (j : Nat) (st : AsyncFileChunker) (ch : List Nat) :
    stepBody j st ch =
      { chunk_counter := ⟨wrap32 (st.chunk_counter.value + 1)⟩
        total_bytes := ⟨wrap32 (st.total_bytes.value + ch.length)⟩
        reports := st.reports ++
          [⟨wrap32 (st.chunk_counter.value + 1), ch.length,
            wrap32 (st.total_bytes.value + ch.length)⟩]
        events := st.events ++ [Ev.read j, Ev.hook j, Ev.update j, Ev.report j]
        messages := st.messages } := by
  simp [stepBody, update_metrics, process_single_chunk, pushEv, display_progress,
    AtomicCounter.increment, AtomicCounter.get]

theorem foldSteps_spec (chs : List (List Nat)) :
    ∀ (j : Nat) (st : AsyncFileChunker),
      wrap32 st.chunk_counter.value = st.chunk_counter.value →
      wrap32 st.total_bytes.value = st.total_bytes.value →
      foldSteps j st chs =
        { chunk_counter := ⟨wrap32 (st.chunk_counter.value + chs.length)⟩
          total_bytes := ⟨wrap32 (st.total_bytes.value + sumLens chs)⟩
          reports := st.reports ++ reportsFrom st.chunk_counter.value st.total_bytes.value chs
          events := st.events ++ seqTraceFrom j chs.length
          messages := st.messages } := by
  induction chs with
  | nil =>
      intro j st h1 h2
      simp only [foldSteps, reportsFrom, seqTraceFrom, sumLens, List.map_nil,
        List.sum_nil, List.length_nil, List.append_nil, Nat.cast_zero, Int.add_zero, h1, h2]
  | cons ch rest ih =>
      intro j st h1 h2
      have hstep : foldSteps j st (ch :: rest) = foldSteps (j + 1) (stepBody j st ch) rest := rfl
      rw [hstep, stepBody_eq, ih (j + 1) _ (by simp [wrap32_idem]) (by simp [wrap32_idem])]
      simp only [reportsFrom, seqTraceFrom, sumLens, List.map_cons, List.sum_cons,
        List.length_cons, List.append_assoc, List.cons_append, List.nil_append,
        List.singleton_append]
      have hcc : wrap32 (wrap32 (st.chunk_counter.value + 1) + (rest.length : Int)) =
          wrap32 (st.chunk_counter.value + ((rest.length + 1 : Nat) : Int)) := by
        rw [wrap32_absorb_left]
        refine congrArg wrap32 ?_
        push_cast
        ring
      have htb : wrap32 (wrap32 (st.total_bytes.value + (ch.length : Int)) +
            ((List.map List.length rest).sum : Int)) =
          wrap32 (st.total_bytes.value +
            ((ch.length + (List.map List.length rest).sum : Nat) : Int)) := by
        rw [wrap32_absorb_left]
        refine congrArg wrap32 ?_
        push_cast
        ring
      rw [hcc, htb]

theorem read_loop_ok (chs : List (List Nat)) :
    ∀ (j : Nat) (st : AsyncFileChunker), (∀ ch ∈ chs, ch ≠ []) →
      read_loop j (chs.map ReadRes.chunk ++ [ReadRes.chunk []]) st =
        (pushEv (Ev.read (j + chs.length)) (foldSteps j st chs), none) := by
  induction chs with
  | nil => intro j st _; simp [read_loop, foldSteps]
  | cons ch rest ih =>
      intro j st hne
      have hch : ch ≠ [] := hne ch (List.mem_cons_self ch rest)
      match ch, hch with
      | b :: bs, _ =>
          have hrec := ih (j + 1) (stepBody j st (b :: bs))
            (fun ch2 h2 => hne ch2 (List.mem_cons_of_mem _ h2))
          simp only [List.map_cons, List.cons_append, read_loop, List.append_eq]
          rw [show update_metrics j (process_single_chunk j (b :: bs) (pushEv (Ev.read j) st))
              (b :: bs).length = stepBody j st (b :: bs) from rfl]
          rw [hrec]
          have hj : j + 1 + rest.length = j + (rest.length + 1) := by omega
          simp [foldSteps, hj]

theorem read_loop_err (chs : List (List Nat)) :
    ∀ (j : Nat) (st : AsyncFileChunker) (e : IOErr) (rest2 : List ReadRes),
      (∀ ch ∈ chs, ch ≠ []) →
      read_loop j (chs.map ReadRes.chunk ++ ReadRes.ioerr e :: rest2) st =
        (pushEv (Ev.read (j + chs.length)) (foldSteps j st chs), some e) := by
  induction chs with
  | nil => intro j st e rest2 _; simp [read_loop, foldSteps]
  | cons ch rest ih =>
      intro j st e rest2 hne
      have hch : ch ≠ [] := hne ch (List.mem_cons_self ch rest)
      match ch, hch with
      | b :: bs, _ =>
          have hrec := ih (j + 1) (stepBody j st (b :: bs)) e rest2
            (fun ch2 h2 => hne ch2 (List.mem_cons_of_mem _ h2))
          simp only [List.map_cons, List.cons_append, read_loop, List.append_eq]
          rw [show update_metrics j (process_single_chunk j (b :: bs) (pushEv (Ev.read j) st))
              (b :: bs).length = stepBody j st (b :: bs) from rfl]
          rw [hrec]
          have hj : j + 1 + rest.length = j + (rest.length + 1) := by omega
          simp [foldSteps, hj]

/--
Full characterisation of a successful run from a fresh processor: the
chunks are `chunksOf`, the counters hold the 32-bit-wrapped chunk count
and byte total, the reports are one per chunk with the post-increment
counter snapshots, and the event trace is strictly sequential with the
final empty read at the end.
-/
theorem runOn_spec (c : Nat) (data : List Nat) :
    runOn c data =
      { chunk_counter := ⟨wrap32 ((chunksOf c data).length)⟩
        total_bytes := ⟨wrap32 (sumLens (chunksOf c data))⟩
        reports := reportsFrom 0 0 (chunksOf c data)
        events := seqTraceFrom 0 (chunksOf c data).length ++
          [Ev.read (chunksOf c data).length]
        messages := [] } := by
  have hchunks : ∀ ch ∈ chunksOf c data, ch ≠ [] :=
    fun ch h => (chunksOf_mem c data ch h).1
  have hloop := read_loop_ok (chunksOf c data) 0 AsyncFileChunker.new hchunks
  have hnew : AsyncFileChunker.new.chunk_counter.value = 0 := by decide
  have hnew2 : AsyncFileChunker.new.total_bytes.value = 0 := by decide
  have hfold := foldSteps_spec (chunksOf c data) 0 AsyncFileChunker.new
    (by rw [hnew]; decide) (by rw [hnew2]; decide)
  unfold runOn fileScript
  simp only [process_file, hloop]
  rw [hfold]
  have h0 : wrap32 0 = 0 := by decide
  simp [pushEv, AsyncFileChunker.new, AtomicCounter.new, h0]

theorem reportsFrom_length (chs : List (List Nat)) :
    ∀ (cc tb : Int), (reportsFrom cc tb chs).length = chs.length := by
  induction chs with
  | nil => intro cc tb; simp [reportsFrom]
  | cons ch rest ih => intro cc tb; simp [reportsFrom, ih]

theorem reportsFrom_get (chs : List (List Nat)) :
    ∀ (cc tb : Int) (i : Nat) (h1 : i < chs.length)
      (h2 : i < (reportsFrom cc tb chs).length),
      (reportsFrom cc tb chs).get ⟨i, h2⟩ =
        ⟨wrap32 (cc + (i + 1 : Nat)), (chs.get ⟨i, h1⟩).length,
          wrap32 (tb + sumLens (chs.take (i + 1)))⟩ := by
  induction chs with
  | nil => intro cc tb i h1 h2; simp at h1
  | cons ch rest ih =>
      intro cc tb i h1 h2
      cases i with
      | zero =>
          simp [reportsFrom, sumLens, List.get]
      | succ n =>
          have hn1 : n < rest.length := by simpa using h1
          have hn2 : n < (reportsFrom (wrap32 (cc + 1)) (wrap32 (tb + ch.length)) rest).length := by
            rw [reportsFrom_length]; exact hn1
          have hrec := ih (wrap32 (cc + 1)) (wrap32 (tb + ch.length)) n hn1 hn2
          have hstep : (reportsFrom cc tb (ch :: rest)).get ⟨n + 1, h2⟩ =
              (reportsFrom (wrap32 (cc + 1)) (wrap32 (tb + ch.length)) rest).get ⟨n, hn2⟩ := rfl
          rw [hstep, hrec]
          have hcnt : wrap32 (wrap32 (cc + 1) + ((n + 1 : Nat) : Int)) =
              wrap32 (cc + ((n + 1 + 1 : Nat) : Int)) := by
            rw [wrap32_absorb_left]
            refine congrArg wrap32 ?_
            push_cast
            ring
          have htot : wrap32 (wrap32 (tb + (ch.length : Int)) +
                ((sumLens (rest.take (n + 1)) : Nat) : Int)) =
              wrap32 (tb + ((sumLens ((ch :: rest).take (n + 1 + 1)) : Nat) : Int)) := by
            rw [wrap32_absorb_left]
            refine congrArg wrap32 ?_
            rw [List.take_succ_cons]
            simp only [sumLens, List.map_cons, List.sum_cons]
            push_cast
            ring
          simp only [List.get_cons_succ, hcnt, htot]

theorem chunksOf_single (c : Nat) (hc : c ≠ 0) (data : List Nat) (hne : data ≠ [])
    (hlen : data.length ≤ c) : chunksOf c data = [data] := by
  match data, hne with
  | b :: bs, _ =>
      rw [chunksOf_cons c hc]
      rw [List.take_of_length_le hlen, List.drop_eq_nil_of_le hlen, chunksOf_nil]

theorem chunksOf_replicate_step (c n x : Nat) (hc : c ≠ 0) (hn : n ≠ 0) :
    chunksOf c (List.replicate n x) =
      List.replicate (min c n) x :: chunksOf c (List.replicate (n - c) x) := by
  match n, hn with
  | m + 1, _ =>
      rw [List.replicate_succ, chunksOf_cons c hc, ← List.replicate_succ,
        List.take_replicate, List.drop_replicate]

/-- The run on a 2³¹-byte file read as a single 2³¹-byte chunk: the
one chunk is counted, but the byte total stored in the 32-bit counter
wraps to `-2^31`. -/
theorem runOn_big :
    runOn (2 ^ 31) (List.replicate (2 ^ 31) 0) =
      { chunk_counter := ⟨1⟩
        total_bytes := ⟨-(2 ^ 31)⟩
        reports := [⟨1, 2 ^ 31, -(2 ^ 31)⟩]
        events := [Ev.read 0, Ev.hook 0, Ev.update 0, Ev.report 0, Ev.read 1]
        messages := [] } := by
  have hne : List.replicate (2 ^ 31) (0 : Nat) ≠ [] := by
    apply List.ne_nil_of_length_pos
    rw [List.length_replicate]
    norm_num
  have hch : chunksOf (2 ^ 31) (List.replicate (2 ^ 31) (0 : Nat)) =
      [List.replicate (2 ^ 31) (0 : Nat)] :=
    chunksOf_single _ (by norm_num) _ hne (by rw [List.length_replicate])
  rw [runOn_spec, hch]
  simp only [List.length_singleton, List.length_cons, List.length_nil, sumLens,
    List.map_cons, List.map_nil, List.sum_cons, List.sum_nil, List.length_replicate,
    reportsFrom, seqTraceFrom, Nat.add_zero]
  decide

theorem errorMessage_notFound_ne_permission (p q : String) :
    errorMessage p IOErr.fileNotFound ≠ errorMessage q IOErr.permissionDenied := by
  intro h
  have h2 : ('F' :: ("ile not found: ".data ++ p.data)) =
      ('P' :: ("ermission denied accessing file: ".data ++ q.data)) :=
    congrArg String.data h
  simp at h2

theorem errorMessage_notFound_ne_other (p q s : String) :
    errorMessage p IOErr.fileNotFound ≠ errorMessage q (IOErr.other s) := by
  intro h
  have h2 : ('F' :: ("ile not found: ".data ++ p.data)) =
      ('E' :: ("rror processing file: ".data ++ s.data)) :=
    congrArg String.data h
  simp at h2

theorem errorMessage_permission_ne_other (p q s : String) :
    errorMessage p IOErr.permissionDenied ≠ errorMessage q (IOErr.other s) := by
  intro h
  have h2 : ('P' :: ("ermission denied accessing file: ".data ++ p.data)) =
      ('E' :: ("rror processing file: ".data ++ s.data)) :=
    congrArg String.data h
  simp at h2

theorem sumLens_bounds (c : Nat) (chs : List (List Nat))
    (h : ∀ ch ∈ chs, 1 ≤ ch.length ∧ ch.length ≤ c) :
    chs.length ≤ sumLens chs ∧ sumLens chs ≤ chs.length * c := by
  induction chs with
  | nil => simp [sumLens]
  | cons ch rest ih =>
      have hh := h ch (List.mem_cons_self ch rest)
      have hr := ih (fun ch2 h2 => h ch2 (List.mem_cons_of_mem _ h2))
      simp only [sumLens, List.map_cons, List.sum_cons, List.length_cons] at *
      have hmul : (rest.length + 1) * c = rest.length * c + c := by ring
      omega

theorem foldl_increment (incs : List Int) :
    ∀ (cnt : AtomicCounter), wrap32 cnt.value = cnt.value →
      (incs.foldl (fun k a => k.increment a) cnt).value = wrap32 (cnt.value + incs.sum) := by
  induction incs with
  | nil =>
      intro cnt h
      simpa using h.symm
  | cons a rest ih =>
      intro cnt h
      simp only [List.foldl_cons, List.sum_cons]
      rw [ih (cnt.increment a) (by simp [AtomicCounter.increment, wrap32_idem])]
      simp only [AtomicCounter.increment, wrap32_absorb_left]
      rw [Int.add_assoc]

/-!
## Claims
-/

/--
**C1.** The claim states that for every chunk size `c ≥ 1` and file of
`n` bytes the final `total_bytes` equals `n` and the final
`chunk_counter` equals `⌈n/c⌉`.  The code stores both counts in the
32-bit `AtomicCounter`, so at `c = 2^31` on a `2^31`-byte file the one
chunk is read and counted but the stored byte total wraps to `-2^31`,
not `n = 2^31`: the code evaluated at this failing input contradicts
the claim.
-/
theorem c1_total_wraps_at_2_31_bytes :
    (runOn (2 ^ 31) (List.replicate (2 ^ 31) 0)).total_bytes.get = -(2 ^ 31) ∧
    ((List.replicate (2 ^ 31) (0 : Nat)).length : Int) = 2 ^ 31 ∧
    ((-(2 ^ 31) : Int) ≠ 2 ^ 31) := by
  refine ⟨?_, ?_, by decide⟩
  · rw [runOn_big]
    rfl
  · rw [List.length_replicate]
    push_cast

/--
**C2.** The claim states that after increments by `a_1..a_k` from
initial value `v`, `get()` returns `v + a_1 + ... + a_k` with no lost
updates.  The backing store is a 32-bit C `int`, so two increments of
`2^30` from 0 leave the counter at `-2^31`, not at the true sum
`2^31`: the code evaluated at this failing input contradicts the
claim.
-/
theorem c2_sum_wraps_32bit :
    (((AtomicCounter.new 0).increment (2 ^ 30)).increment (2 ^ 30)).get = -(2 ^ 31) ∧
    ((0 : Int) + 2 ^ 30 + 2 ^ 30 = 2 ^ 31) ∧
    ((-(2 ^ 31) : Int) ≠ 0 + 2 ^ 30 + 2 ^ 30) := by
  refine ⟨by decide, by decide, by decide⟩

/--
**C3.** Opening a nonexistent path raises `FileNotFoundError`, which
`process_file` catches: the printed message is `"File not found: "`
followed by the path (so it names the path), and it differs from the
permission-denied message and from the generic message for every path
and detail string; the counters stay at 0, no progress line is
printed, and no loop event — in particular no hook invocation — ever
happens.  `validate_file_path` likewise rejects a nonexistent path
with a message naming it.
-/
theorem c3_nonexistent_path_notFound (p : String) (b : Bool) :
    (process_file p (Except.error IOErr.fileNotFound) AsyncFileChunker.new).messages =
      ["File not found: " ++ p] ∧
    (process_file p (Except.error IOErr.fileNotFound) AsyncFileChunker.new).chunk_counter.get
      = 0 ∧
    (process_file p (Except.error IOErr.fileNotFound) AsyncFileChunker.new).total_bytes.get
      = 0 ∧
    (process_file p (Except.error IOErr.fileNotFound) AsyncFileChunker.new).reports = [] ∧
    (process_file p (Except.error IOErr.fileNotFound) AsyncFileChunker.new).events = [] ∧
    (∀ q : String, errorMessage p IOErr.fileNotFound ≠ errorMessage q IOErr.permissionDenied) ∧
    (∀ q s : String, errorMessage p IOErr.fileNotFound ≠ errorMessage q (IOErr.other s)) ∧
    validate_file_path p false b = Except.error ("File '" ++ p ++ "' does not exist") := by
  refine ⟨?_, ?_, ?_, ?_, ?_, fun q => errorMessage_notFound_ne_permission p q,
    fun q s => errorMessage_notFound_ne_other p q s, ?_⟩
  · simp [process_file, AsyncFileChunker.new, errorMessage]
  · simp only [process_file]
    decide
  · simp only [process_file]
    decide
  · simp only [process_file]
    decide
  · simp only [process_file]
    decide
  · simp [validate_file_path]

/--
**C4.** Each run constructs its processor afresh (`__init__` creates
two zeroed counters and nothing printed), so two runs of
`process_file` on the same unchanged file with the same chunk size —
each on a freshly constructed instance — produce identical chunk
counts, identical byte totals, and identical progress lines: the
counters are per-instance, so nothing leaks across runs.
-/
theorem c4_rerun_identical (c : Nat) (data : List Nat) (p1 p2 : AsyncFileChunker)
    (h1 : p1 = AsyncFileChunker.new) (h2 : p2 = AsyncFileChunker.new) :
    (process_file "file" (Except.ok (fileScript c data)) p1).chunk_counter.get =
      (process_file "file" (Except.ok (fileScript c data)) p2).chunk_counter.get ∧
    (process_file "file" (Except.ok (fileScript c data)) p1).total_bytes.get =
      (process_file "file" (Except.ok (fileScript c data)) p2).total_bytes.get ∧
    (process_file "file" (Except.ok (fileScript c data)) p1).reports =
      (process_file "file" (Except.ok (fileScript c data)) p2).reports := by
  subst h1
  subst h2
  exact ⟨rfl, rfl, rfl⟩

/-- Witness for C4 at a concrete file and chunk size. -/
theorem c4_rerun_identical_witness :
    (process_file "file" (Except.ok (fileScript 8192 [1, 2, 3]))
        AsyncFileChunker.new).chunk_counter.get =
      (process_file "file" (Except.ok (fileScript 8192 [1, 2, 3]))
        AsyncFileChunker.new).chunk_counter.get ∧
    (process_file "file" (Except.ok (fileScript 8192 [1, 2, 3]))
        AsyncFileChunker.new).total_bytes.get =
      (process_file "file" (Except.ok (fileScript 8192 [1, 2, 3]))
        AsyncFileChunker.new).total_bytes.get ∧
    (process_file "file" (Except.ok (fileScript 8192 [1, 2, 3]))
        AsyncFileChunker.new).reports =
      (process_file "file" (Except.ok (fileScript 8192 [1, 2, 3]))
        AsyncFileChunker.new).reports :=
  c4_rerun_identical 8192 [1, 2, 3] AsyncFileChunker.new AsyncFileChunker.new rfl rfl

/--
**C5.** An 8192-byte chunk size on a 20000-byte file yields chunks of
lengths 8192, 8192, 3616 in that order; the three progress reports
carry those chunk lengths, running totals 8192, 16384, 20000, and
chunk-counter values 1, 2, 3.
-/
theorem c5_scenario_8192_on_20000 :
    (chunksOf 8192 (List.replicate 20000 0)).map List.length = [8192, 8192, 3616] ∧
    (runOn 8192 (List.replicate 20000 0)).reports.map ProgressReport.chunkLength =
      [8192, 8192, 3616] ∧
    (runOn 8192 (List.replicate 20000 0)).reports.map ProgressReport.total =
      [8192, 16384, 20000] ∧
    (runOn 8192 (List.replicate 20000 0)).reports.map ProgressReport.count = [1, 2, 3] := by
  have hch : chunksOf 8192 (List.replicate 20000 (0 : Nat)) =
      [List.replicate 8192 0, List.replicate 8192 0, List.replicate 3616 0] := by
    rw [chunksOf_replicate_step 8192 20000 0 (by norm_num) (by norm_num)]
    norm_num
    rw [chunksOf_replicate_step 8192 11808 0 (by norm_num) (by norm_num)]
    norm_num
    rw [chunksOf_replicate_step 8192 3616 0 (by norm_num) (by norm_num)]
    norm_num
    exact chunksOf_nil 8192
  rw [runOn_spec, hch]
  simp only [sumLens, reportsFrom, List.map_cons, List.map_nil, List.sum_cons, List.sum_nil,
    List.length_replicate, Nat.add_zero]
  refine ⟨by decide, by decide, ?_, ?_⟩ <;> decide

/--
**C6 (amended).** For every non-empty chunk exactly one progress line
is printed: the reports of a run are in bijection with the chunks, and
the `i`-th line carries the stored chunk-counter value `wrap32 (i+1)`,
this chunk's byte length, and the stored total-bytes value
`wrap32` of the running byte sum — equal to the true ordinal and the
true running total whenever those stay below `2^31` — rendered by the
f-string with thousands-separators right-aligned to minimum widths 4,
6 and 10.
-/
theorem c6_one_line_per_chunk (c : Nat) (data : List Nat) :
    (runOn c data).reports.length = (chunksOf c data).length ∧
    (∀ (i : Nat) (h1 : i < (chunksOf c data).length)
        (h2 : i < (runOn c data).reports.length),
      ((runOn c data).reports.get ⟨i, h2⟩).count = wrap32 ((i + 1 : Nat)) ∧
      ((runOn c data).reports.get ⟨i, h2⟩).chunkLength =
        ((chunksOf c data).get ⟨i, h1⟩).length ∧
      ((runOn c data).reports.get ⟨i, h2⟩).total =
        wrap32 ((sumLens ((chunksOf c data).take (i + 1)) : Nat)) ∧
      ProgressReport.render ((runOn c data).reports.get ⟨i, h2⟩) =
        "Processed[" ++ rjust 4 (intcomma (((runOn c data).reports.get ⟨i, h2⟩).count))
          ++ "]:"
          ++ rjust 6 (intcomma (Int.ofNat (((runOn c data).reports.get ⟨i, h2⟩).chunkLength)))
          ++ "B / "
          ++ rjust 10 (intcomma (((runOn c data).reports.get ⟨i, h2⟩).total)) ++ "B") := by
  constructor
  · rw [runOn_spec]
    exact reportsFrom_length (chunksOf c data) 0 0
  · intro i h1 h2
    have h2s : i < (reportsFrom 0 0 (chunksOf c data)).length := by
      rw [reportsFrom_length]
      exact h1
    have hrep : (runOn c data).reports = reportsFrom 0 0 (chunksOf c data) := by
      rw [runOn_spec]
    have hget := List.get_of_eq hrep ⟨i, h2⟩
    rw [hget, reportsFrom_get (chunksOf c data) 0 0 i h1 (by rw [reportsFrom_length]; exact h1)]
    refine ⟨?_, rfl, ?_, rfl⟩
    · simp
    · simp

/-- Witness for C6 at chunk size 2 on the file `[9, 9, 9]`, first
report. -/
theorem c6_one_line_per_chunk_witness :
    ((runOn 2 [9, 9, 9]).reports.get ⟨0, by decide⟩).count = wrap32 ((0 + 1 : Nat)) ∧
    ((runOn 2 [9, 9, 9]).reports.get ⟨0, by decide⟩).chunkLength =
      ((chunksOf 2 [9, 9, 9]).get ⟨0, by decide⟩).length :=
  ⟨((c6_one_line_per_chunk 2 [9, 9, 9]).2 0 (by decide) (by decide)).1,
    ((c6_one_line_per_chunk 2 [9, 9, 9]).2 0 (by decide) (by decide)).2.1⟩

/--
**C6 (counterexample to the claim as stated).** On the `2^31`-byte
file read as one `2^31`-byte chunk, the single printed line does not
render the true running total `2^31`: the stored counter wrapped, so
the line renders `-2,147,483,648` instead of `2,147,483,648`.
-/
theorem c6_line_misstates_total_at_2_31 :
    (runOn (2 ^ 31) (List.replicate (2 ^ 31) 0)).reports.map ProgressReport.render ≠
      [ProgressReport.render ⟨1, 2 ^ 31, 2 ^ 31⟩] := by
  rw [runOn_big]
  decide

/--
**C7.** The `AtomicCounter` backing store is a 32-bit signed integer:
after any sequence of increments the stored value is the signed 32-bit
wrap of the true sum — congruent to it modulo `2^32` and always within
`[-2^31, 2^31)` — and for the concrete sequence `[2^31 - 1, 1]`, whose
true sum `2^31` exceeds the 32-bit boundary, the stored value silently
wraps to `-2^31` instead of equalling the true sum.
-/
theorem c7_arithmetic_is_modulo_2_32 :
    (∀ (v : Int) (incs : List Int),
      (incs.foldl (fun k a => k.increment a) (AtomicCounter.new v)).get =
        wrap32 (v + incs.sum)) ∧
    (∀ (v : Int) (incs : List Int),
      (incs.foldl (fun k a => k.increment a) (AtomicCounter.new v)).get % 2 ^ 32 =
        (v + incs.sum) % 2 ^ 32) ∧
    (∀ (v : Int) (incs : List Int),
      -(2 ^ 31) ≤ (incs.foldl (fun k a => k.increment a) (AtomicCounter.new v)).get ∧
        (incs.foldl (fun k a => k.increment a) (AtomicCounter.new v)).get < 2 ^ 31) ∧
    ([(2 ^ 31 - 1 : Int), 1].foldl (fun k a => k.increment a) (AtomicCounter.new 0)).get
      = -(2 ^ 31) ∧
    ((2 ^ 31 - 1 : Int) + 1 = 2 ^ 31) ∧
    ((-(2 ^ 31) : Int) ≠ 2 ^ 31) := by
  have hmain : ∀ (v : Int) (incs : List Int),
      (incs.foldl (fun k a => k.increment a) (AtomicCounter.new v)).get =
        wrap32 (v + incs.sum) := by
    intro v incs
    show (incs.foldl (fun k a => k.increment a) (AtomicCounter.new v)).value = _
    rw [foldl_increment incs (AtomicCounter.new v) (by simp [AtomicCounter.new, wrap32_idem])]
    simp [AtomicCounter.new, wrap32_absorb_left]
  refine ⟨hmain, fun v incs => ?_, fun v incs => ?_, by decide, by decide, by decide⟩
  · rw [hmain]
    exact wrap32_emod _
  · rw [hmain]
    exact wrap32_range _

/--
**C8.** The event trace of every run is strictly sequential: for each
chunk `i` in order, the read completes, then the hook completes, then
the counters are updated, then the progress line is printed, and only
then does read `i+1` begin; the trailing event is the final empty read
that terminates the loop.  The second conjunct spells out the shape of
one block of the trace, so the equation entails that no two chunks are
ever in flight at once.
-/
theorem c8_strictly_sequential_trace (c : Nat) (data : List Nat) :
    (runOn c data).events =
      seqTraceFrom 0 (chunksOf c data).length ++ [Ev.read (chunksOf c data).length] ∧
    (∀ (j k : Nat), seqTraceFrom j (k + 1) =
      [Ev.read j, Ev.hook j, Ev.update j, Ev.report j] ++ seqTraceFrom (j + 1) k) := by
  refine ⟨?_, fun j k => rfl⟩
  rw [runOn_spec]

/--
Characterisation of a run whose read script fails with `e` after the
nonempty chunks `chs`: the chunks before the failure are fully
processed, the exception aborts the loop at the failing read, and the
handler appends exactly the one classified message.
-/
theorem runErr_spec (p : String) (chs : List (List Nat)) (e : IOErr) (rest : List ReadRes)
    (hne : ∀ ch ∈ chs, ch ≠ []) :
    process_file p (Except.ok (chs.map ReadRes.chunk ++ ReadRes.ioerr e :: rest))
        AsyncFileChunker.new =
      { chunk_counter := ⟨wrap32 ((chs.length : Nat))⟩
        total_bytes := ⟨wrap32 ((sumLens chs : Nat))⟩
        reports := reportsFrom 0 0 chs
        events := seqTraceFrom 0 chs.length ++ [Ev.read chs.length]
        messages := [errorMessage p e] } := by
  have hloop := read_loop_err chs 0 AsyncFileChunker.new e rest hne
  have hfold := foldSteps_spec chs 0 AsyncFileChunker.new (by decide) (by decide)
  simp only [process_file, hloop]
  rw [hfold]
  have h0 : wrap32 0 = 0 := by decide
  simp [pushEv, AsyncFileChunker.new, AtomicCounter.new, h0]

/--
**C9.** When a read raises, `process_file` catches it at the read
boundary, classifies it (the three printed messages are pairwise
distinct for every path and detail string), prints exactly one
message, and aborts the loop: only the chunks before the failure are
processed, the trace stops at the failing read with no retry, and the
function returns its state normally — in the model `process_file` is a
total function, as the Python function always returns `None`.
-/
theorem c9_read_failure_classified_and_aborts (p : String) (chs : List (List Nat))
    (e : IOErr) (rest : List ReadRes) (hne : ∀ ch ∈ chs, ch ≠ []) :
    (process_file p (Except.ok (chs.map ReadRes.chunk ++ ReadRes.ioerr e :: rest))
        AsyncFileChunker.new).messages = [errorMessage p e] ∧
    (process_file p (Except.ok (chs.map ReadRes.chunk ++ ReadRes.ioerr e :: rest))
        AsyncFileChunker.new).reports.length = chs.length ∧
    (process_file p (Except.ok (chs.map ReadRes.chunk ++ ReadRes.ioerr e :: rest))
        AsyncFileChunker.new).events =
      seqTraceFrom 0 chs.length ++ [Ev.read chs.length] ∧
    (process_file p (Except.ok (chs.map ReadRes.chunk ++ ReadRes.ioerr e :: rest))
        AsyncFileChunker.new).chunk_counter.get = wrap32 ((chs.length : Nat)) ∧
    (process_file p (Except.ok (chs.map ReadRes.chunk ++ ReadRes.ioerr e :: rest))
        AsyncFileChunker.new).total_bytes.get = wrap32 ((sumLens chs : Nat)) ∧
    (errorMessage p IOErr.fileNotFound ≠ errorMessage p IOErr.permissionDenied) ∧
    (∀ s : String, errorMessage p IOErr.fileNotFound ≠ errorMessage p (IOErr.other s)) ∧
    (∀ s : String, errorMessage p IOErr.permissionDenied ≠ errorMessage p (IOErr.other s)) := by
  rw [runErr_spec p chs e rest hne]
  refine ⟨rfl, reportsFrom_length chs 0 0, rfl, by rw [AtomicCounter.get],
    by rw [AtomicCounter.get], errorMessage_notFound_ne_permission p p,
    fun s => errorMessage_notFound_ne_other p p s,
    fun s => errorMessage_permission_ne_other p p s⟩

/-- Witness for C9: a one-chunk script failing with a generic error. -/
theorem c9_read_failure_witness :
    (process_file "f" (Except.ok ([[1]].map ReadRes.chunk ++
        ReadRes.ioerr (IOErr.other "boom") :: []))
      AsyncFileChunker.new).messages = [errorMessage "f" (IOErr.other "boom")] :=
  (c9_read_failure_classified_and_aborts "f" [[1]] (IOErr.other "boom") [] (by decide)).1

/--
**C10 (amended).** Loop invariant of `process_file`: every counted
chunk has length between 1 and `chunk_size`; the true iteration count
`k` and true byte sum `m` satisfy `k ≤ m ≤ k * chunk_size` (and `m`
equals the file length); the counters hold `wrap32 k` and `wrap32 m`
— equal to `k` and `m` below `2^31` — a zero-length read terminates
the loop with nothing printed, no hook run and counters untouched; and
each printed running total is the `wrap32` of the byte sum of the
chunks processed to that point, printed only after both increments.
-/
theorem c10_loop_invariant_wrapped (c : Nat) (data : List Nat) (hc : 1 ≤ c) :
    (∀ ch ∈ chunksOf c data, 1 ≤ ch.length ∧ ch.length ≤ c) ∧
    (chunksOf c data).length ≤ sumLens (chunksOf c data) ∧
    sumLens (chunksOf c data) ≤ (chunksOf c data).length * c ∧
    sumLens (chunksOf c data) = data.length ∧
    (runOn c data).chunk_counter.get = wrap32 (((chunksOf c data).length : Nat)) ∧
    (runOn c data).total_bytes.get = wrap32 ((sumLens (chunksOf c data) : Nat)) ∧
    (runOn c []).reports = [] ∧
    (runOn c []).chunk_counter.get = 0 ∧
    (runOn c []).total_bytes.get = 0 ∧
    (runOn c []).events = [Ev.read 0] ∧
    (∀ (i : Nat) (h2 : i < (runOn c data).reports.length),
      ((runOn c data).reports.get ⟨i, h2⟩).total =
        wrap32 ((sumLens ((chunksOf c data).take (i + 1)) : Nat))) := by
  have hc0 : c ≠ 0 := by omega
  have hmem : ∀ ch ∈ chunksOf c data, 1 ≤ ch.length ∧ ch.length ≤ c := by
    intro ch hch
    have h := chunksOf_mem c data ch hch
    exact ⟨by
      have := List.length_pos.mpr h.1
      omega, h.2⟩
  have hbounds := sumLens_bounds c (chunksOf c data) hmem
  have hnil : chunksOf c ([] : List Nat) = [] := chunksOf_nil c
  refine ⟨hmem, hbounds.1, hbounds.2, sumLens_chunksOf c hc0 data, ?_, ?_, ?_, ?_, ?_, ?_, ?_⟩
  · rw [runOn_spec, AtomicCounter.get]
  · rw [runOn_spec, AtomicCounter.get]
  · rw [runOn_spec, hnil]
    rfl
  · rw [runOn_spec, hnil, AtomicCounter.get]
    decide
  · rw [runOn_spec, hnil, AtomicCounter.get]
    decide
  · rw [runOn_spec, hnil]
    rfl
  · intro i h2
    have hrep : (runOn c data).reports = reportsFrom 0 0 (chunksOf c data) := by
      rw [runOn_spec]
    have h1 : i < (chunksOf c data).length := by
      have h3 := h2
      rw [hrep, reportsFrom_length] at h3
      exact h3
    have hget := List.get_of_eq hrep ⟨i, h2⟩
    rw [hget, reportsFrom_get (chunksOf c data) 0 0 i h1
      (by rw [reportsFrom_length]; exact h1)]
    simp

/-- Witness for C10 at chunk size 3 on a 4-byte file. -/
theorem c10_loop_invariant_wrapped_witness :
    (chunksOf 3 [1, 2, 3, 4]).length ≤ sumLens (chunksOf 3 [1, 2, 3, 4]) :=
  (c10_loop_invariant_wrapped 3 [1, 2, 3, 4] (by decide)).2.1

/--
**C10 (counterexample to the claim as stated).** After one iteration
on the `2^31`-byte file read as one chunk, `chunk_counter` holds 1 but
`total_bytes` holds `-2^31`, so the claimed invariant
`chunk_counter ≤ total_bytes` fails on the stored counter values.
-/
theorem c10_invariant_fails_at_2_31 :
    (runOn (2 ^ 31) (List.replicate (2 ^ 31) 0)).chunk_counter.get = 1 ∧
    (runOn (2 ^ 31) (List.replicate (2 ^ 31) 0)).total_bytes.get = -(2 ^ 31) ∧
    ¬((runOn (2 ^ 31) (List.replicate (2 ^ 31) 0)).chunk_counter.get ≤
        (runOn (2 ^ 31) (List.replicate (2 ^ 31) 0)).total_bytes.get) := by
  rw [runOn_big]
  refine ⟨rfl, rfl, by decide⟩
